import Mathlib

/-!
Shallow embedding of `src/colorscheme-wizard.py` (kicad-colourscheme-converter).

Modelling conventions:
* Python `str` is modelled as `List Char`.
* Python `int` is modelled as `ℤ` (arbitrary precision, as in Python).
* Python `float` is modelled as `ℚ`.  Every IEEE-754 double is a terminating
  decimal fraction, and Python's `str`/`float` round trip is exact, so the
  observable parse/print behaviour on colour strings is captured exactly by
  exact rationals together with the canonical terminating-decimal printer
  `pyRatRepr` below (exponent notation, `inf`/`nan` and digit-group
  underscores never arise for the values these claims range over and are not
  modelled).
* `math.sqrt` distances are compared with strict `<` on floats; for the
  integer radicands that occur here (at most `3 * 255 ^ 2`), correctly
  rounded square roots are distinct for distinct radicands and ordered the
  same way, so the scan in `most_similar` is embedded by comparing squared
  distances (`distSq`), with the `float("inf")` seed embedded as `none`.
* A Python function that can raise (`ValueError` from validation, or the
  parse errors from `int()` / `float()` / indexing) is embedded as an
  `Option`-valued function returning `none` on any raise.
-/

namespace Wizard

/-- `' '`, `'\t'`, `'\n'`, `'\r'`: the whitespace stripped by Python's
numeric constructors. -/
def isSpaceChar (c : Char) : Bool :=
  decide (c = ' ' ∨ c = '\t' ∨ c = '\n' ∨ c = '\r')

/-- ASCII decimal digit test (`0`-`9`). -/
def isDigitChar (c : Char) : Bool :=
  decide (48 ≤ c.toNat ∧ c.toNat ≤ 57)

/-- ASCII hexadecimal digit test, as in the regex `[0-9a-fA-F]`. -/
def isHexDigitChar (c : Char) : Bool :=
  decide ((48 ≤ c.toNat ∧ c.toNat ≤ 57) ∨ (97 ≤ c.toNat ∧ c.toNat ≤ 102) ∨
    (65 ≤ c.toNat ∧ c.toNat ≤ 70))

/-- Value of a decimal digit character. -/
def digitVal (c : Char) : ℕ := c.toNat - 48

/-- Value of a hexadecimal digit character. -/
def hexVal (c : Char) : ℕ :=
  if 48 ≤ c.toNat ∧ c.toNat ≤ 57 then c.toNat - 48
  else if 97 ≤ c.toNat ∧ c.toNat ≤ 102 then c.toNat - 87
  else if 65 ≤ c.toNat ∧ c.toNat ≤ 70 then c.toNat - 55
  else 0

/-- The decimal digit character for `n < 10`. -/
def digitChar (n : ℕ) : Char := Char.ofNat (48 + n)

/-- Strip leading and trailing whitespace (as Python's `int()`/`float()` do). -/
def stripSpaces (cs : List Char) : List Char :=
  ((cs.dropWhile isSpaceChar).reverse.dropWhile isSpaceChar).reverse

/-- Value of a list of decimal digits, most significant first. -/
def digitsToNat (cs : List Char) : ℕ :=
  cs.foldl (fun a c => 10 * a + digitVal c) 0

/-- Value of a list of hexadecimal digits, most significant first. -/
def hexDigitsToNat (cs : List Char) : ℕ :=
  cs.foldl (fun a c => 16 * a + hexVal c) 0

/-- A non-empty all-decimal-digit string, or failure. -/
def parseDigits (cs : List Char) : Option ℕ :=
  if cs ≠ [] ∧ cs.all isDigitChar then some (digitsToNat cs) else none

/-- A non-empty all-hexadecimal-digit string, or failure. -/
def parseHexDigits (cs : List Char) : Option ℕ :=
  if cs ≠ [] ∧ cs.all isHexDigitChar then some (hexDigitsToNat cs) else none

/-- Python `int(s)`: strip whitespace, optional sign, decimal digits. -/
def parseInt (cs : List Char) : Option ℤ :=
  match stripSpaces cs with
  | [] => none
  | c :: rest =>
    if c = '-' then (parseDigits rest).map fun n => -(n : ℤ)
    else if c = '+' then (parseDigits rest).map fun n => (n : ℤ)
    else (parseDigits (c :: rest)).map fun n => (n : ℤ)

/-- Hex digits with an optional `0x`/`0X` marker, as `int(s, 16)` allows. -/
def parseHexCore (cs : List Char) : Option ℕ :=
  match cs with
  | c0 :: c1 :: rest =>
    if c0 = '0' ∧ (c1 = 'x' ∨ c1 = 'X') then parseHexDigits rest
    else parseHexDigits cs
  | _ => parseHexDigits cs

/-- Python `int(s, 16)`: strip whitespace, optional sign, hex digits. -/
def parseHex (cs : List Char) : Option ℤ :=
  match stripSpaces cs with
  | [] => none
  | c :: rest =>
    if c = '-' then (parseHexCore rest).map fun n => -(n : ℤ)
    else if c = '+' then (parseHexCore rest).map fun n => (n : ℤ)
    else (parseHexCore (c :: rest)).map fun n => (n : ℤ)

/-- Unsigned part of Python `float(s)`: `digits`, `digits.digits`,
`digits.` or `.digits`. -/
def parseFloatCore (cs : List Char) : Option ℚ :=
  let ip := cs.takeWhile isDigitChar
  match cs.dropWhile isDigitChar with
  | [] => if ip = [] then none else some (digitsToNat ip : ℚ)
  | c :: fr =>
    if c = '.' ∧ fr.all isDigitChar ∧ (ip ≠ [] ∨ fr ≠ []) then
      some ((digitsToNat ip : ℚ) + (digitsToNat fr : ℚ) / 10 ^ fr.length)
    else none

/-- Python `float(s)`: strip whitespace, optional sign, decimal literal. -/
def parseFloat (cs : List Char) : Option ℚ :=
  match stripSpaces cs with
  | [] => none
  | c :: rest =>
    if c = '-' then (parseFloatCore rest).map fun q => -q
    else if c = '+' then parseFloatCore rest
    else parseFloatCore (c :: rest)

/-- Decimal digits of `n`, most significant first (fuel-based so that it
reduces in the kernel; the fuel `n + 1` always suffices). -/
def natDecimalAux : ℕ → ℕ → List Char
  | 0, _ => []
  | fuel + 1, n =>
    if n < 10 then [digitChar n]
    else natDecimalAux fuel (n / 10) ++ [digitChar (n % 10)]

/-- Python `str(n)` for a natural number. -/
def natDecimal (n : ℕ) : List Char := natDecimalAux (n + 1) n

/-- Python `str(i)` for an integer. -/
def intDecimal (i : ℤ) : List Char :=
  if i < 0 then '-' :: natDecimal (-i).toNat else natDecimal i.toNat

/-- Exponent of `p` in `n` (fuel-based). -/
def multOfAux : ℕ → ℕ → ℕ → ℕ
  | 0, _, _ => 0
  | fuel + 1, p, n =>
    if 2 ≤ p ∧ 0 < n ∧ n % p = 0 then multOfAux fuel p (n / p) + 1 else 0

/-- Exponent of `p` in `n`. -/
def multOf (p n : ℕ) : ℕ := multOfAux n p n

/-- For a denominator of the form `2 ^ i * 5 ^ j`, the least `k` with
`d ∣ 10 ^ k`; `none` for denominators that are not decimal. -/
def decExp (d : ℕ) : Option ℕ :=
  let i := multOf 2 d
  let j := multOf 5 d
  if 2 ^ i * 5 ^ j = d then some (max i j) else none

/-- `q` is a terminating decimal fraction (true of every Python float). -/
def isDecFrac (q : ℚ) : Bool := (decExp q.den).isSome

/-- Left-pad a digit string with `'0'` to length `k`. -/
def padZeros (k : ℕ) (ds : List Char) : List Char :=
  List.replicate (k - ds.length) '0' ++ ds

/-- Python `str(f)` for a non-negative float, i.e. the canonical terminating
decimal with at least one fractional digit (`0.5`, `1.0`, `0.25`, ...). -/
def pyRatReprNN (q : ℚ) : List Char :=
  match decExp q.den with
  | none => ['?']
  | some k =>
    let m := q.num.toNat * 10 ^ k / q.den
    if k = 0 then natDecimal m ++ ['.', '0']
    else natDecimal (m / 10 ^ k) ++ '.' :: padZeros k (natDecimal (m % 10 ^ k))

/-- Python `str(f)` for a float. -/
def pyRatRepr (q : ℚ) : List Char :=
  if q < 0 then '-' :: pyRatReprNN (-q) else pyRatReprNN q

/-- Python `int(f)`: truncation toward zero. -/
def intTrunc (q : ℚ) : ℤ := if q < 0 then -((-q).floor) else q.floor

/-- Python `s.split(sep)` for a single-character separator. -/
def splitChar (sep : Char) : List Char → List (List Char)
  | [] => [[]]
  | c :: cs =>
    match splitChar sep cs with
    | [] => [[]]
    | g :: gs => if c = sep then [] :: g :: gs else (c :: g) :: gs

/-- `p` is an initial segment of `s`. -/
def leadsWith : List Char → List Char → Bool
  | [], _ => true
  | _ :: _, [] => false
  | p :: ps, c :: cs => p = c && leadsWith ps cs

/-- Python `p in s`: `p` occurs contiguously in `s`. -/
def occursIn (p : List Char) : List Char → Bool
  | [] => leadsWith p []
  | c :: cs => leadsWith p (c :: cs) || occursIn p cs

/-- Non-overlapping left-to-right matches of `re.findall("[0-9a-fA-F]{2}", s)`. -/
def findHexPairs : List Char → List (Char × Char)
  | [] => []
  | [_] => []
  | a :: b :: rest =>
    if isHexDigitChar a && isHexDigitChar b then (a, b) :: findHexPairs rest
    else findHexPairs (b :: rest)

/-- Integer value of one `findall` match `"xy"` via `int(_, 16)`. -/
def pairVal (p : Char × Char) : ℤ := 16 * hexVal p.1 + hexVal p.2

/-- The `Colour` dataclass fields (`red`, `green`, `blue` Python ints,
`alpha` a Python float). -/
structure Colour where
  red : ℤ
  green : ℤ
  blue : ℤ
  alpha : ℚ
deriving DecidableEq

/-- `Colour(...)` including `__post_init__`: alpha checked against
`[0.0, 1.0]`, then each channel against `[0, 255]`; any violation raises
(`none`). -/
def mkColour (red green blue : ℤ) (alpha : ℚ) : Option Colour :=
  if alpha < 0 ∨ 1 < alpha then none
  else if red < 0 ∨ 255 < red then none
  else if green < 0 ∨ 255 < green then none
  else if blue < 0 ∨ 255 < blue then none
  else some ⟨red, green, blue, alpha⟩

/-- `Colour.from_hex_string`: drop every `'#'`, read a 2-hex-digit alpha when
more than 6 characters remain, then take the first three 2-hex-digit matches
as red, green, blue. -/
def Colour.from_hex_string (hex_val : List Char) : Option Colour :=
  let h := hex_val.filter (fun c => c ≠ '#')
  if 6 < h.length then
    match parseHex (h.take 2) with
    | none => none
    | some a =>
      match findHexPairs (h.drop 2) with
      | p0 :: p1 :: p2 :: _ => mkColour (pairVal p0) (pairVal p1) (pairVal p2) (a : ℚ)
      | _ => none
  else
    match findHexPairs h with
    | p0 :: p1 :: p2 :: _ => mkColour (pairVal p0) (pairVal p1) (pairVal p2) 1
    | _ => none

/-- `Colour.from_rgb_string`: contents between the first `'('` and the next
`')'`, split on commas; `"1.0"` appended when `"rgba"` does not occur in the
whole input; channels via `int()`, alpha via `float()`. -/
def Colour.from_rgb_string (rgb_val : List Char) : Option Colour :=
  match splitChar '(' rgb_val with
  | _ :: afterParen :: _ =>
    let contents := afterParen.takeWhile (fun c => c ≠ ')')
    let vals0 := splitChar ',' contents
    let vals := if occursIn ['r', 'g', 'b', 'a'] rgb_val then vals0
      else vals0 ++ [['1', '.', '0']]
    match vals.get? 0, vals.get? 1, vals.get? 2, vals.get? 3 with
    | some v0, some v1, some v2, some v3 =>
      match parseInt v0, parseInt v1, parseInt v2, parseFloat v3 with
      | some r, some g, some b, some a => mkColour r g b a
      | _, _, _, _ => none
    | _, _, _, _ => none
  | _ => none

/-- `Colour.to_hex_string`, including the source's literal `:02x` text (the
format specifiers are inside the f-string's literal part, not applied). -/
def Colour.to_hex_string (c : Colour) : List Char :=
  let representation := intDecimal c.red ++ [':', '0', '2', 'x'] ++
    intDecimal c.green ++ [':', '0', '2', 'x'] ++
    intDecimal c.blue ++ [':', '0', '2', 'x']
  if c.alpha ≠ 1 then
    '#' :: (intDecimal (intTrunc (c.alpha * 255)) ++ [':'] ++ representation)
  else
    '#' :: representation

/-- `Colour.to_rgb_string` (also `Colour.__str__`). -/
def Colour.to_rgb_string (c : Colour) : List Char :=
  if c.alpha ≠ 1 then
    ['r', 'g', 'b', 'a', '('] ++ intDecimal c.red ++ [',', ' '] ++
      intDecimal c.green ++ [',', ' '] ++ intDecimal c.blue ++ [',', ' '] ++
      pyRatRepr c.alpha ++ [')']
  else
    ['r', 'g', 'b', '('] ++ intDecimal c.red ++ [',', ' '] ++
      intDecimal c.green ++ [',', ' '] ++ intDecimal c.blue ++ [')']

/-- Squared Euclidean RGB distance; `math.sqrt` of this is the distance the
source compares, and comparing the squares is order-equivalent. -/
def distSq (c d : Colour) : ℤ :=
  (c.red - d.red) ^ 2 + (c.green - d.green) ^ 2 + (c.blue - d.blue) ^ 2

/-- One iteration of the `most_similar` loop; the second component is the
current best distance, `none` standing for the `float("inf")` seed. -/
def msStep (c : Colour) (best : Colour × Option ℤ) (colour : Colour) :
    Colour × Option ℤ :=
  match best.2 with
  | none => (colour, some (distSq c colour))
  | some d => if distSq c colour < d then (colour, some (distSq c colour)) else best

/-- `Colour.most_similar`: linear scan seeded with `(self, float("inf"))`,
updating on strictly smaller distance. -/
def Colour.most_similar (c : Colour) (palette : List Colour) : Colour :=
  (palette.foldl (msStep c) (c, none)).1

/-- First strict minimiser of the distance to `c` among `b :: xs` (proof
companion of the scan). -/
def firstMin (c : Colour) : Colour → List Colour → Colour
  | b, [] => b
  | b, x :: xs => if distSq c x < distSq c b then firstMin c x xs else firstMin c b xs

/-- A JSON value as `translate_colourscheme` distinguishes them: a string, a
string-keyed mapping in insertion order, or anything else (number, boolean,
null, array) collapsed to an opaque tag. -/
inductive JValue where
  | vstr : List Char → JValue
  | vobj : List (List Char × JValue) → JValue
  | vother : ℕ → JValue

/-- `translate_colourscheme`: per pair in insertion order, skip-keys copied
verbatim, mappings translated recursively, strings re-coloured through
`from_rgb_string` / `most_similar` / `str`, everything else dropped; any
raise aborts the whole translation (`none`). -/
def translate_colourscheme (palette : List Colour) (skip_keys : List (List Char)) :
    List (List Char × JValue) → Option (List (List Char × JValue))
  | [] => some []
  | (key, value) :: rest =>
    if key ∈ skip_keys then
      (translate_colourscheme palette skip_keys rest).map fun r => (key, value) :: r
    else
      match value with
      | JValue.vobj o =>
        match translate_colourscheme palette skip_keys o,
            translate_colourscheme palette skip_keys rest with
        | some o2, some r => some ((key, JValue.vobj o2) :: r)
        | _, _ => none
      | JValue.vstr s =>
        match Colour.from_rgb_string s with
        | none => none
        | some c =>
          (translate_colourscheme palette skip_keys rest).map fun r =>
            (key, JValue.vstr (Colour.to_rgb_string (Colour.most_similar c palette))) :: r
      | JValue.vother _ => translate_colourscheme palette skip_keys rest

/-- A pair survives translation when its key is skipped or its value is a
mapping or a string (the three handled cases of the spec). -/
def survives (skip_keys : List (List Char)) (kv : List Char × JValue) : Bool :=
  decide (kv.1 ∈ skip_keys) ||
    (match kv.2 with
     | JValue.vobj _ => true
     | JValue.vstr _ => true
     | JValue.vother _ => false)

/-- Modelled from the spec's wording of §4.2: a four-way case split decides,
for each pair in insertion order, whether translation fails (`none`), the
pair is dropped (`some none`) or a translated pair is kept (`some (some _)`),
and the output is the list of kept pairs in input order. -/
def translateSpec (palette : List Colour) (skip_keys : List (List Char)) :
    List (List Char × JValue) → Option (List (List Char × JValue))
  | [] => some []
  | (key, value) :: rest =>
    let entry : Option (Option (List Char × JValue)) :=
      if key ∈ skip_keys then some (some (key, value))
      else
        match value with
        | JValue.vobj o =>
          (translateSpec palette skip_keys o).map fun o2 => some (key, JValue.vobj o2)
        | JValue.vstr s =>
          (Colour.from_rgb_string s).map fun c =>
            some (key, JValue.vstr (Colour.to_rgb_string (Colour.most_similar c palette)))
        | JValue.vother _ => some none
    match entry, translateSpec palette skip_keys rest with
    | some e, some r => some (e.toList ++ r)
    | _, _ => none

/-- The tree has a non-skipped string leaf on which `from_rgb_string`
raises. -/
def hasBadLeaf (skip_keys : List (List Char)) :
    List (List Char × JValue) → Bool
  | [] => false
  | (key, value) :: rest =>
    (if key ∈ skip_keys then false
     else
       match value with
       | JValue.vobj o => hasBadLeaf skip_keys o
       | JValue.vstr s => (Colour.from_rgb_string s).isNone
       | JValue.vother _ => false) || hasBadLeaf skip_keys rest

/-- The `Colour` invariant established by `__post_init__`. -/
def validColour (c : Colour) : Prop :=
  0 ≤ c.red ∧ c.red ≤ 255 ∧ 0 ≤ c.green ∧ c.green ≤ 255 ∧
    0 ≤ c.blue ∧ c.blue ≤ 255 ∧ 0 ≤ c.alpha ∧ c.alpha ≤ 1

lemma digitChar_isDigit {n : ℕ} (h : n < 10) : isDigitChar (digitChar n) = true := by
  interval_cases n <;> decide

lemma digitVal_digitChar {n : ℕ} (h : n < 10) : digitVal (digitChar n) = n := by
  interval_cases n <;> decide

lemma digit_ne {c d : Char} (h : isDigitChar c = true) (hd : isDigitChar d = false) :
    c ≠ d := by
  rintro rfl
  rw [h] at hd
  cases hd

lemma hexdigit_ne {c d : Char} (h : isHexDigitChar c = true)
    (hd : isHexDigitChar d = false) : c ≠ d := by
  rintro rfl
  rw [h] at hd
  cases hd

lemma digit_not_space {c : Char} (h : isDigitChar c = true) : isSpaceChar c = false := by
  cases hb : isSpaceChar c with
  | false => rfl
  | true =>
    exfalso
    rcases of_decide_eq_true hb with rfl | rfl | rfl | rfl <;> exact absurd h (by decide)

lemma hexdigit_not_space {c : Char} (h : isHexDigitChar c = true) :
    isSpaceChar c = false := by
  cases hb : isSpaceChar c with
  | false => rfl
  | true =>
    exfalso
    rcases of_decide_eq_true hb with rfl | rfl | rfl | rfl <;> exact absurd h (by decide)

lemma hexVal_lt16 {c : Char} (h : isHexDigitChar c = true) : hexVal c < 16 := by
  have h' := of_decide_eq_true h
  unfold hexVal
  split_ifs <;> omega

lemma pairVal_bounds {a b : Char} (ha : isHexDigitChar a = true)
    (hb : isHexDigitChar b = true) : 0 ≤ pairVal (a, b) ∧ pairVal (a, b) ≤ 255 := by
  have h1 := hexVal_lt16 ha
  have h2 := hexVal_lt16 hb
  show 0 ≤ 16 * (hexVal a : ℤ) + hexVal b ∧ 16 * (hexVal a : ℤ) + hexVal b ≤ 255
  omega

lemma natDecimalAux_succ (fuel n : ℕ) :
    natDecimalAux (fuel + 1) n =
      if n < 10 then [digitChar n]
      else natDecimalAux fuel (n / 10) ++ [digitChar (n % 10)] := rfl

lemma natDecimalAux_eq {n : ℕ} : ∀ f1 f2 : ℕ, n < f1 → n < f2 →
    natDecimalAux f1 n = natDecimalAux f2 n := by
  induction n using Nat.strong_induction_on with
  | _ n ih =>
    intro f1 f2 h1 h2
    match f1, f2 with
    | f1 + 1, f2 + 1 =>
      rw [natDecimalAux_succ, natDecimalAux_succ]
      by_cases hn : n < 10
      · simp [hn]
      · have hlt : n / 10 < n := Nat.div_lt_self (by omega) (by omega)
        simp only [if_neg hn]
        rw [ih (n / 10) hlt f1 f2 (by omega) (by omega)]

lemma natDecimal_small {n : ℕ} (h : n < 10) : natDecimal n = [digitChar n] := by
  show natDecimalAux (n + 1) n = _
  rw [natDecimalAux_succ, if_pos h]

lemma natDecimal_step {n : ℕ} (h : 10 ≤ n) :
    natDecimal n = natDecimal (n / 10) ++ [digitChar (n % 10)] := by
  have hlt : n / 10 < n := Nat.div_lt_self (by omega) (by omega)
  show natDecimalAux (n + 1) n = natDecimalAux (n / 10 + 1) (n / 10) ++ _
  rw [natDecimalAux_succ, if_neg (by omega : ¬ n < 10),
    natDecimalAux_eq n (n / 10 + 1) (by omega) (by omega)]

lemma natDecimal_digits {n : ℕ} : ∀ c ∈ natDecimal n, isDigitChar c = true := by
  induction n using Nat.strong_induction_on with
  | _ n ih =>
    by_cases hn : n < 10
    · rw [natDecimal_small hn]
      intro c hc
      rw [List.mem_singleton] at hc
      subst hc
      exact digitChar_isDigit hn
    · rw [natDecimal_step (by omega)]
      intro c hc
      rcases List.mem_append.1 hc with h | h
      · exact ih (n / 10) (Nat.div_lt_self (by omega) (by omega)) c h
      · rw [List.mem_singleton] at h
        subst h
        exact digitChar_isDigit (Nat.mod_lt _ (by omega))

lemma natDecimal_ne_nil {n : ℕ} : natDecimal n ≠ [] := by
  by_cases hn : n < 10
  · rw [natDecimal_small hn]
    simp
  · rw [natDecimal_step (by omega)]
    simp

lemma digitsToNat_go (ys : List Char) : ∀ a : ℕ,
    ys.foldl (fun a c => 10 * a + digitVal c) a =
      a * 10 ^ ys.length + digitsToNat ys := by
  induction ys with
  | nil => intro a; simp [digitsToNat]
  | cons c ys ih =>
    intro a
    have h1 : (c :: ys).foldl (fun a c => 10 * a + digitVal c) a =
        ys.foldl (fun a c => 10 * a + digitVal c) (10 * a + digitVal c) := rfl
    have h2 : digitsToNat (c :: ys) =
        ys.foldl (fun a c => 10 * a + digitVal c) (10 * 0 + digitVal c) := rfl
    rw [h1, ih, h2, ih]
    simp only [List.length_cons]
    ring

lemma digitsToNat_append (xs ys : List Char) :
    digitsToNat (xs ++ ys) = digitsToNat xs * 10 ^ ys.length + digitsToNat ys := by
  unfold digitsToNat
  rw [List.foldl_append, digitsToNat_go]
  rfl

lemma digitsToNat_singleton (c : Char) : digitsToNat [c] = digitVal c := by
  unfold digitsToNat
  simp

lemma digitsToNat_natDecimal {n : ℕ} : digitsToNat (natDecimal n) = n := by
  induction n using Nat.strong_induction_on with
  | _ n ih =>
    by_cases hn : n < 10
    · rw [natDecimal_small hn, digitsToNat_singleton, digitVal_digitChar hn]
    · rw [natDecimal_step (by omega), digitsToNat_append,
        ih (n / 10) (Nat.div_lt_self (by omega) (by omega)), digitsToNat_singleton,
        digitVal_digitChar (Nat.mod_lt n (by omega))]
      simp only [List.length_singleton, pow_one]
      omega

lemma natDecimal_length_le {k : ℕ} : ∀ {n : ℕ}, 1 ≤ k → n < 10 ^ k →
    (natDecimal n).length ≤ k := by
  induction k with
  | zero => omega
  | succ k ih =>
    intro n _ hn
    by_cases h10 : n < 10
    · rw [natDecimal_small h10]
      simp only [List.length_singleton]
      omega
    · have hk : 1 ≤ k := by
        rcases Nat.eq_zero_or_pos k with rfl | h
        · rw [pow_one] at hn; omega
        · exact h
      have hdiv : n / 10 < 10 ^ k := by
        rw [Nat.div_lt_iff_lt_mul (by omega)]
        calc n < 10 ^ (k + 1) := hn
        _ = 10 ^ k * 10 := by ring
      have := ih hk hdiv
      rw [natDecimal_step (by omega)]
      simp only [List.length_append, List.length_singleton]
      omega

lemma dropWhile_eq_self {p : Char → Bool} {cs : List Char}
    (h : ∀ c ∈ cs, p c = false) : cs.dropWhile p = cs := by
  cases cs with
  | nil => rfl
  | cons c cs =>
    rw [List.dropWhile_cons, h c (List.mem_cons_self c cs)]
    simp

lemma stripSpaces_eq_self {cs : List Char} (h : ∀ c ∈ cs, isSpaceChar c = false) :
    stripSpaces cs = cs := by
  unfold stripSpaces
  rw [dropWhile_eq_self h, dropWhile_eq_self (fun c hc => h c (List.mem_reverse.1 hc)),
    List.reverse_reverse]

lemma stripSpaces_cons {c : Char} {cs : List Char} (h : isSpaceChar c = true) :
    stripSpaces (c :: cs) = stripSpaces cs := by
  unfold stripSpaces
  rw [List.dropWhile_cons, h]
  simp

lemma parseDigits_of {cs : List Char} (hne : cs ≠ [])
    (hd : ∀ c ∈ cs, isDigitChar c = true) : parseDigits cs = some (digitsToNat cs) := by
  unfold parseDigits
  rw [if_pos ⟨hne, List.all_eq_true.2 hd⟩]

lemma parseInt_congr {cs ds : List Char} (h : stripSpaces cs = stripSpaces ds) :
    parseInt cs = parseInt ds := by
  unfold parseInt
  rw [h]

lemma parseFloat_congr {cs ds : List Char} (h : stripSpaces cs = stripSpaces ds) :
    parseFloat cs = parseFloat ds := by
  unfold parseFloat
  rw [h]

lemma parseHex_congr {cs ds : List Char} (h : stripSpaces cs = stripSpaces ds) :
    parseHex cs = parseHex ds := by
  unfold parseHex
  rw [h]

lemma parseInt_digits {cs : List Char} (hne : cs ≠ [])
    (hd : ∀ c ∈ cs, isDigitChar c = true) :
    parseInt cs = some (digitsToNat cs : ℤ) := by
  obtain ⟨c, cs', rfl⟩ := List.exists_cons_of_ne_nil hne
  have hc := hd c (List.mem_cons_self _ _)
  unfold parseInt
  rw [stripSpaces_eq_self (fun x hx => digit_not_space (hd x hx))]
  simp only [if_neg (digit_ne hc (by decide : isDigitChar '-' = false)),
    if_neg (digit_ne hc (by decide : isDigitChar '+' = false)),
    parseDigits_of (by simp) hd]
  rfl

lemma parseInt_intDecimal {i : ℤ} (h : 0 ≤ i) : parseInt (intDecimal i) = some i := by
  unfold intDecimal
  rw [if_neg (by omega),
    parseInt_digits natDecimal_ne_nil (fun c hc => natDecimal_digits c hc),
    digitsToNat_natDecimal, Int.toNat_of_nonneg h]

lemma takeWhile_prefix_stop {p : Char → Bool} {xs ys : List Char} {y : Char}
    (hxs : ∀ c ∈ xs, p c = true) (hy : p y = false) :
    (xs ++ y :: ys).takeWhile p = xs ∧ (xs ++ y :: ys).dropWhile p = y :: ys := by
  induction xs with
  | nil => simp [List.takeWhile_cons, List.dropWhile_cons, hy]
  | cons x xs ih =>
    have hx := hxs x (List.mem_cons_self _ _)
    have ih' := ih fun c hc => hxs c (List.mem_cons_of_mem _ hc)
    simp only [List.cons_append, List.takeWhile_cons, List.dropWhile_cons, hx]
    simp [ih'.1, ih'.2]

lemma splitChar_ne_nil {sep : Char} {l : List Char} : splitChar sep l ≠ [] := by
  cases l with
  | nil => simp [splitChar]
  | cons c cs =>
    unfold splitChar
    cases h : splitChar sep cs with
    | nil => simp
    | cons g gs =>
      by_cases hc : c = sep <;> simp [hc]

lemma splitChar_cons (sep c : Char) (cs : List Char) :
    splitChar sep (c :: cs) =
      match splitChar sep cs with
      | [] => [[]]
      | g :: gs => if c = sep then [] :: g :: gs else (c :: g) :: gs := rfl

lemma splitChar_no_sep {sep : Char} {xs : List Char} (h : ∀ c ∈ xs, c ≠ sep) :
    splitChar sep xs = [xs] := by
  induction xs with
  | nil => rfl
  | cons c cs ih =>
    rw [splitChar_cons, ih fun x hx => h x (List.mem_cons_of_mem _ hx)]
    simp [h c (List.mem_cons_self _ _)]

lemma splitChar_append {sep : Char} {xs ys : List Char} (h : ∀ c ∈ xs, c ≠ sep) :
    splitChar sep (xs ++ sep :: ys) = xs :: splitChar sep ys := by
  induction xs with
  | nil =>
    show splitChar sep (sep :: ys) = [] :: splitChar sep ys
    rw [splitChar_cons]
    cases hy : splitChar sep ys with
    | nil => exact absurd hy splitChar_ne_nil
    | cons g gs => simp
  | cons c cs ih =>
    show splitChar sep (c :: (cs ++ sep :: ys)) = (c :: cs) :: splitChar sep ys
    rw [splitChar_cons, ih fun x hx => h x (List.mem_cons_of_mem _ hx)]
    simp [h c (List.mem_cons_self _ _)]

lemma leadsWith_append (p rest : List Char) : leadsWith p (p ++ rest) = true := by
  induction p with
  | nil => rfl
  | cons c ps ih => simp [leadsWith, ih]

lemma occursIn_append (p rest : List Char) : occursIn p (p ++ rest) = true := by
  cases p with
  | nil =>
    cases rest with
    | nil => rfl
    | cons c cs => simp [occursIn, leadsWith]
  | cons c ps =>
    show occursIn (c :: ps) (c :: (ps ++ rest)) = true
    unfold occursIn
    rw [show c :: (ps ++ rest) = (c :: ps) ++ rest from rfl, leadsWith_append]
    rfl

lemma leadsWith_subset {p : List Char} : ∀ {s : List Char}, leadsWith p s = true →
    ∀ x ∈ p, x ∈ s := by
  induction p with
  | nil => intro s _ x hx; cases hx
  | cons c ps ih =>
    intro s h x hx
    cases s with
    | nil => cases h
    | cons d ds =>
      have h' : (decide (c = d) && leadsWith ps ds) = true := h
      rw [Bool.and_eq_true, decide_eq_true_eq] at h'
      rcases List.mem_cons.1 hx with rfl | hx
      · rw [h'.1]; exact List.mem_cons_self _ _
      · exact List.mem_cons_of_mem _ (ih h'.2 x hx)

lemma occursIn_subset {p : List Char} : ∀ {s : List Char}, occursIn p s = true →
    ∀ x ∈ p, x ∈ s := by
  intro s
  induction s with
  | nil =>
    intro h x hx
    cases p with
    | nil => cases hx
    | cons c ps => cases h
  | cons d ds ih =>
    intro h x hx
    have h' : (leadsWith p (d :: ds) || occursIn p ds) = true := h
    rw [Bool.or_eq_true] at h'
    rcases h' with h2 | h2
    · exact leadsWith_subset h2 x hx
    · exact List.mem_cons_of_mem _ (ih h2 x hx)

lemma occursIn_eq_false {p s : List Char} {x : Char} (hx : x ∈ p) (hs : x ∉ s) :
    occursIn p s = false := by
  cases h : occursIn p s with
  | false => rfl
  | true => exact absurd (occursIn_subset h x hx) hs

lemma decExp_dvd {d k : ℕ} (h : decExp d = some k) : d ∣ 10 ^ k ∧ 0 < d := by
  unfold decExp at h
  dsimp only at h
  split_ifs at h with hc
  · injection h with hk
    refine ⟨?_, ?_⟩
    · rw [← hc, show (10 : ℕ) = 2 * 5 from rfl, mul_pow]
      exact mul_dvd_mul (pow_dvd_pow 2 (hk ▸ le_max_left _ _))
        (pow_dvd_pow 5 (hk ▸ le_max_right _ _))
    · rw [← hc]
      positivity

lemma pyRatReprNN_eq {q : ℚ} {k : ℕ} (h : decExp q.den = some k) :
    pyRatReprNN q =
      if k = 0 then natDecimal (q.num.toNat * 10 ^ k / q.den) ++ ['.', '0']
      else natDecimal (q.num.toNat * 10 ^ k / q.den / 10 ^ k) ++
        '.' :: padZeros k (natDecimal (q.num.toNat * 10 ^ k / q.den % 10 ^ k)) := by
  unfold pyRatReprNN
  rw [h]

lemma padZeros_length {k : ℕ} {ds : List Char} (h : ds.length ≤ k) :
    (padZeros k ds).length = k := by
  unfold padZeros
  simp only [List.length_append, List.length_replicate]
  omega

lemma padZeros_digits {k : ℕ} {ds : List Char} (h : ∀ c ∈ ds, isDigitChar c = true) :
    ∀ c ∈ padZeros k ds, isDigitChar c = true := by
  unfold padZeros
  intro c hc
  rcases List.mem_append.1 hc with h1 | h1
  · rw [List.eq_of_mem_replicate h1]
    decide
  · exact h c h1

lemma digitsToNat_replicate_zero (j : ℕ) : digitsToNat (List.replicate j '0') = 0 := by
  induction j with
  | zero => rfl
  | succ j ih =>
    rw [List.replicate_succ', digitsToNat_append, ih, digitsToNat_singleton]
    decide

lemma digitsToNat_padZeros {k : ℕ} {ds : List Char} :
    digitsToNat (padZeros k ds) = digitsToNat ds := by
  unfold padZeros
  rw [digitsToNat_append, digitsToNat_replicate_zero]
  simp

lemma parseFloatCore_shape {xs fr : List Char} (hxs : ∀ c ∈ xs, isDigitChar c = true)
    (hxne : xs ≠ []) (hfr : ∀ c ∈ fr, isDigitChar c = true) :
    parseFloatCore (xs ++ '.' :: fr) =
      some ((digitsToNat xs : ℚ) + (digitsToNat fr : ℚ) / 10 ^ fr.length) := by
  have hts := @takeWhile_prefix_stop isDigitChar xs fr '.' hxs (by decide)
  simp only [parseFloatCore]
  rw [hts.1, hts.2]
  show (if ('.' : Char) = '.' ∧ fr.all isDigitChar = true ∧ (xs ≠ [] ∨ fr ≠ []) then
      some ((digitsToNat xs : ℚ) + (digitsToNat fr : ℚ) / 10 ^ fr.length)
    else none) = some ((digitsToNat xs : ℚ) + (digitsToNat fr : ℚ) / 10 ^ fr.length)
  rw [if_pos ⟨rfl, List.all_eq_true.2 hfr, Or.inl hxne⟩]

lemma parseFloatCore_pyRatReprNN {q : ℚ} {k : ℕ} (hq : 0 ≤ q)
    (h : decExp q.den = some k) : parseFloatCore (pyRatReprNN q) = some q := by
  obtain ⟨hdvd, hdpos⟩ := decExp_dvd h
  have hnum0 : 0 ≤ q.num := Rat.num_nonneg.2 hq
  have hmden : (q.num.toNat * 10 ^ k / q.den) * q.den = q.num.toNat * 10 ^ k :=
    Nat.div_mul_cancel (Dvd.dvd.mul_left hdvd _)
  have hden0 : ((q.den : ℚ)) ≠ 0 := by
    have := q.den_pos
    positivity
  have hnumq : (q.num : ℚ) = q * q.den := (div_eq_iff hden0).1 (Rat.num_div_den q)
  have htn : ((q.num.toNat : ℕ) : ℚ) = (q.num : ℚ) := by
    exact_mod_cast Int.toNat_of_nonneg hnum0
  have hqm : ((q.num.toNat * 10 ^ k / q.den : ℕ) : ℚ) = q * 10 ^ k := by
    have h1 : ((q.num.toNat * 10 ^ k / q.den : ℕ) : ℚ) * q.den =
        ((q.num.toNat * 10 ^ k / q.den * q.den : ℕ) : ℚ) := by push_cast; ring
    have h2 : ((q.num.toNat * 10 ^ k : ℕ) : ℚ) = (q.num : ℚ) * 10 ^ k := by
      push_cast
      rw [htn]
    have h3 : ((q.num.toNat * 10 ^ k / q.den : ℕ) : ℚ) * q.den = q * 10 ^ k * q.den := by
      rw [h1, hmden, h2, hnumq]
      ring
    exact mul_right_cancel₀ hden0 h3
  rw [pyRatReprNN_eq h]
  by_cases hk : k = 0
  · subst hk
    rw [if_pos rfl]
    rw [show (['.', '0'] : List Char) = '.' :: ['0'] from rfl]
    rw [parseFloatCore_shape natDecimal_digits natDecimal_ne_nil
      (by intro c hc; rw [List.mem_singleton] at hc; subst hc; decide)]
    rw [digitsToNat_natDecimal]
    rw [show digitsToNat ['0'] = 0 from by decide]
    rw [hqm]
    norm_num
  · rw [if_neg hk]
    have hk1 : 1 ≤ k := by omega
    have hmodlt : q.num.toNat * 10 ^ k / q.den % 10 ^ k < 10 ^ k :=
      Nat.mod_lt _ (by positivity)
    have hlen : (natDecimal (q.num.toNat * 10 ^ k / q.den % 10 ^ k)).length ≤ k :=
      natDecimal_length_le hk1 hmodlt
    rw [parseFloatCore_shape natDecimal_digits natDecimal_ne_nil
      (padZeros_digits natDecimal_digits)]
    rw [digitsToNat_natDecimal, digitsToNat_padZeros, digitsToNat_natDecimal,
      padZeros_length hlen]
    congr 1
    have hdm := Nat.div_add_mod (q.num.toNat * 10 ^ k / q.den) (10 ^ k)
    have hdm' : q.num.toNat * 10 ^ k / q.den / 10 ^ k * 10 ^ k +
        q.num.toNat * 10 ^ k / q.den % 10 ^ k = q.num.toNat * 10 ^ k / q.den := by
      rw [mul_comm] at hdm
      exact hdm
    have h10 : ((10 : ℚ) ^ k) ≠ 0 := by positivity
    have hgoal : ((q.num.toNat * 10 ^ k / q.den / 10 ^ k : ℕ) : ℚ) * 10 ^ k +
        ((q.num.toNat * 10 ^ k / q.den % 10 ^ k : ℕ) : ℚ) = q * 10 ^ k := by
      rw [← hqm]
      exact_mod_cast hdm'
    field_simp
    linarith [hgoal]

lemma pyRatReprNN_chars {q : ℚ} {k : ℕ} (h : decExp q.den = some k) :
    ∀ c ∈ pyRatReprNN q, isDigitChar c = true ∨ c = '.' := by
  rw [pyRatReprNN_eq h]
  by_cases hk : k = 0
  · subst hk
    rw [if_pos rfl]
    intro c hc
    rcases List.mem_append.1 hc with h1 | h1
    · exact Or.inl (natDecimal_digits c h1)
    · rcases List.mem_cons.1 h1 with rfl | h1
      · exact Or.inr rfl
      · rw [List.mem_singleton] at h1
        subst h1
        exact Or.inl (by decide)
  · rw [if_neg hk]
    intro c hc
    rcases List.mem_append.1 hc with h1 | h1
    · exact Or.inl (natDecimal_digits c h1)
    · rcases List.mem_cons.1 h1 with rfl | h1
      · exact Or.inr rfl
      · exact Or.inl (padZeros_digits natDecimal_digits c h1)

lemma pyRatRepr_nonneg {q : ℚ} (hq : 0 ≤ q) : pyRatRepr q = pyRatReprNN q := by
  unfold pyRatRepr
  rw [if_neg (not_lt.2 hq)]

lemma parseFloat_pyRatRepr {q : ℚ} {k : ℕ} (hq : 0 ≤ q)
    (h : decExp q.den = some k) : parseFloat (pyRatRepr q) = some q := by
  rw [pyRatRepr_nonneg hq]
  have hchars := pyRatReprNN_chars h
  have hnospace : ∀ c ∈ pyRatReprNN q, isSpaceChar c = false := by
    intro c hc
    rcases hchars c hc with h1 | h1
    · exact digit_not_space h1
    · subst h1
      decide
  obtain ⟨c0, rest, hcons⟩ : ∃ c0 rest, pyRatReprNN q = c0 :: rest := by
    rw [pyRatReprNN_eq h]
    by_cases hk : k = 0
    · subst hk
      rw [if_pos rfl]
      obtain ⟨c0, rest, e⟩ := List.exists_cons_of_ne_nil
        (natDecimal_ne_nil (n := q.num.toNat * 10 ^ 0 / q.den))
      exact ⟨c0, rest ++ ['.', '0'], by rw [e]; rfl⟩
    · rw [if_neg hk]
      obtain ⟨c0, rest, e⟩ := List.exists_cons_of_ne_nil
        (natDecimal_ne_nil (n := q.num.toNat * 10 ^ k / q.den / 10 ^ k))
      exact ⟨c0, rest ++ '.' :: padZeros k (natDecimal (q.num.toNat * 10 ^ k / q.den % 10 ^ k)),
        by rw [e]; rfl⟩
  have hc0 : isDigitChar c0 = true ∨ c0 = '.' := hchars c0 (by rw [hcons]; exact List.mem_cons_self _ _)
  have hne1 : c0 ≠ '-' := by
    rcases hc0 with h1 | h1
    · exact digit_ne h1 (by decide)
    · subst h1; decide
  have hne2 : c0 ≠ '+' := by
    rcases hc0 with h1 | h1
    · exact digit_ne h1 (by decide)
    · subst h1; decide
  unfold parseFloat
  rw [stripSpaces_eq_self hnospace, hcons]
  simp only [if_neg hne1, if_neg hne2]
  rw [← hcons]
  exact parseFloatCore_pyRatReprNN hq h


lemma mkColour_valid {c : Colour} (h : validColour c) :
    mkColour c.red c.green c.blue c.alpha = some c := by
  obtain ⟨h1, h2, h3, h4, h5, h6, h7, h8⟩ := h
  unfold mkColour
  rw [if_neg (by rintro (h | h) <;> linarith), if_neg (by omega), if_neg (by omega),
    if_neg (by omega)]

lemma from_rgb_string_eval {s tail : List Char} {first v0 v1 v2 v3 : List Char}
    (h1 : splitChar '(' s = [first, tail])
    (h2 : (if occursIn ['r', 'g', 'b', 'a'] s then
        splitChar ',' (tail.takeWhile (fun c => c ≠ ')'))
      else splitChar ',' (tail.takeWhile (fun c => c ≠ ')')) ++ [['1', '.', '0']]) =
        [v0, v1, v2, v3]) :
    Colour.from_rgb_string s =
      match parseInt v0, parseInt v1, parseInt v2, parseFloat v3 with
      | some r, some g, some b, some a => mkColour r g b a
      | _, _, _, _ => none := by
  unfold Colour.from_rgb_string
  rw [h1]
  dsimp only
  rw [h2]
  rfl



lemma intDecimal_digits {i : ℤ} (h : 0 ≤ i) : ∀ c ∈ intDecimal i, isDigitChar c = true := by
  unfold intDecimal
  rw [if_neg (by omega)]
  exact natDecimal_digits

/-- C3: for every valid colour (channels in range, alpha a terminating decimal
fraction, as every Python float is), `from_rgb_string (to_rgb_string c)`
succeeds and returns exactly `c`, in both the `rgb(...)` form (alpha 1.0,
implicit appended `"1.0"`) and the `rgba(...)` form (alpha different from
1.0). -/
theorem rgb_round_trip (c : Colour) (hv : validColour c) (hd : isDecFrac c.alpha = true) :
    Colour.from_rgb_string (Colour.to_rgb_string c) = some c := by
  obtain ⟨hr0, hr1, hg0, hg1, hb0, hb1, ha0, ha1⟩ := hv
  obtain ⟨k, hk⟩ := Option.isSome_iff_exists.1 hd
  have hdr := intDecimal_digits hr0
  have hdg := intDecimal_digits hg0
  have hdb := intDecimal_digits hb0
  by_cases hA : c.alpha = 1
  · -- "rgb(R, G, B)" with the implicit appended "1.0"
    have hclassb : ∀ x ∈ intDecimal c.red ++ ',' :: ' ' ::
        (intDecimal c.green ++ ',' :: ' ' :: intDecimal c.blue),
        isDigitChar x = true ∨ x = ',' ∨ x = ' ' := by
      intro x hx
      simp only [List.mem_append, List.mem_cons] at hx
      rcases hx with h | rfl | rfl | h | rfl | rfl | h
      · exact Or.inl (hdr x h)
      · exact Or.inr (Or.inl rfl)
      · exact Or.inr (Or.inr rfl)
      · exact Or.inl (hdg x h)
      · exact Or.inr (Or.inl rfl)
      · exact Or.inr (Or.inr rfl)
      · exact Or.inl (hdb x h)
    have hform : Colour.to_rgb_string c = ['r', 'g', 'b'] ++ '(' ::
        ((intDecimal c.red ++ ',' :: ' ' ::
          (intDecimal c.green ++ ',' :: ' ' :: intDecimal c.blue)) ++ [')']) := by
      unfold Colour.to_rgb_string
      rw [if_neg (by simpa using hA)]
      simp [List.append_assoc]
    have h1 : splitChar '(' (Colour.to_rgb_string c) =
        [['r', 'g', 'b'], (intDecimal c.red ++ ',' :: ' ' ::
          (intDecimal c.green ++ ',' :: ' ' :: intDecimal c.blue)) ++ [')']] := by
      rw [hform, splitChar_append (by decide), splitChar_no_sep]
      intro x hx
      rcases List.mem_append.1 hx with h | h
      · rcases hclassb x h with h2 | rfl | rfl
        · exact digit_ne h2 (by decide)
        · decide
        · decide
      · rw [List.mem_singleton] at h
        subst h
        decide
    have hna : ('a' : Char) ∉ Colour.to_rgb_string c := by
      rw [hform]
      intro hmem
      rcases List.mem_append.1 hmem with h | h
      · exact absurd h (by decide)
      · rcases List.mem_cons.1 h with h2 | h2
        · exact absurd h2 (by decide)
        · rcases List.mem_append.1 h2 with h3 | h3
          · rcases hclassb 'a' h3 with h4 | h4 | h4
            · exact absurd h4 (by decide)
            · exact absurd h4 (by decide)
            · exact absurd h4 (by decide)
          · rw [List.mem_singleton] at h3
            exact absurd h3 (by decide)
    have hocc : occursIn ['r', 'g', 'b', 'a'] (Colour.to_rgb_string c) = false :=
      @occursIn_eq_false ['r', 'g', 'b', 'a'] (Colour.to_rgb_string c) 'a' (by decide) hna
    have htw : List.takeWhile (fun ch => ch ≠ ')')
        ((intDecimal c.red ++ ',' :: ' ' ::
          (intDecimal c.green ++ ',' :: ' ' :: intDecimal c.blue)) ++ [')']) =
        intDecimal c.red ++ ',' :: ' ' ::
          (intDecimal c.green ++ ',' :: ' ' :: intDecimal c.blue) := by
      refine (@takeWhile_prefix_stop (fun ch => decide (ch ≠ ')')) _ [] ')' ?_ (by decide)).1
      intro x hx
      rcases hclassb x hx with h2 | rfl | rfl
      · exact decide_eq_true (digit_ne h2 (by decide))
      · decide
      · decide
    have hsplit2 : splitChar ',' (intDecimal c.red ++ ',' :: ' ' ::
        (intDecimal c.green ++ ',' :: ' ' :: intDecimal c.blue)) =
        [intDecimal c.red, ' ' :: intDecimal c.green, ' ' :: intDecimal c.blue] := by
      rw [splitChar_append (fun x hx => digit_ne (hdr x hx) (by decide))]
      rw [show (' ' :: (intDecimal c.green ++ ',' :: ' ' :: intDecimal c.blue) : List Char) =
        (' ' :: intDecimal c.green) ++ ',' :: (' ' :: intDecimal c.blue) from rfl]
      rw [splitChar_append]
      · rw [splitChar_no_sep]
        intro x hx
        rcases List.mem_cons.1 hx with rfl | hx
        · decide
        · exact digit_ne (hdb x hx) (by decide)
      · intro x hx
        rcases List.mem_cons.1 hx with rfl | hx
        · decide
        · exact digit_ne (hdg x hx) (by decide)
    have h2 : (if occursIn ['r', 'g', 'b', 'a'] (Colour.to_rgb_string c) then
        splitChar ',' (((intDecimal c.red ++ ',' :: ' ' ::
          (intDecimal c.green ++ ',' :: ' ' :: intDecimal c.blue)) ++ [')']).takeWhile
            (fun ch => ch ≠ ')'))
      else splitChar ',' (((intDecimal c.red ++ ',' :: ' ' ::
          (intDecimal c.green ++ ',' :: ' ' :: intDecimal c.blue)) ++ [')']).takeWhile
            (fun ch => ch ≠ ')')) ++ [['1', '.', '0']]) =
        [intDecimal c.red, ' ' :: intDecimal c.green, ' ' :: intDecimal c.blue,
          ['1', '.', '0']] := by
      rw [if_neg (by simp [hocc]), htw, hsplit2]
      rfl
    rw [from_rgb_string_eval h1 h2]
    have hp0 : parseInt (intDecimal c.red) = some c.red := parseInt_intDecimal hr0
    have hp1 : parseInt (' ' :: intDecimal c.green) = some c.green :=
      (parseInt_congr (stripSpaces_cons (by decide))).trans (parseInt_intDecimal hg0)
    have hp2 : parseInt (' ' :: intDecimal c.blue) = some c.blue :=
      (parseInt_congr (stripSpaces_cons (by decide))).trans (parseInt_intDecimal hb0)
    have hp3 : parseFloat ['1', '.', '0'] = some 1 := by
      have e : pyRatRepr (1 : ℚ) = ['1', '.', '0'] := by decide
      have h := @parseFloat_pyRatRepr 1 0 (by decide) (by decide)
      rw [e] at h
      exact h
    rw [hp0, hp1, hp2, hp3]
    show mkColour c.red c.green c.blue 1 = some c
    rw [← hA]
    exact mkColour_valid ⟨hr0, hr1, hg0, hg1, hb0, hb1, ha0, ha1⟩
  · -- "rgba(R, G, B, A)"
    have hda : ∀ x ∈ pyRatRepr c.alpha, isDigitChar x = true ∨ x = '.' := by
      rw [pyRatRepr_nonneg ha0]
      exact pyRatReprNN_chars hk
    have hclassb : ∀ x ∈ intDecimal c.red ++ ',' :: ' ' ::
        (intDecimal c.green ++ ',' :: ' ' ::
          (intDecimal c.blue ++ ',' :: ' ' :: pyRatRepr c.alpha)),
        isDigitChar x = true ∨ x = ',' ∨ x = ' ' ∨ x = '.' := by
      intro x hx
      simp only [List.mem_append, List.mem_cons] at hx
      rcases hx with h | rfl | rfl | h | rfl | rfl | h | rfl | rfl | h
      · exact Or.inl (hdr x h)
      · exact Or.inr (Or.inl rfl)
      · exact Or.inr (Or.inr (Or.inl rfl))
      · exact Or.inl (hdg x h)
      · exact Or.inr (Or.inl rfl)
      · exact Or.inr (Or.inr (Or.inl rfl))
      · exact Or.inl (hdb x h)
      · exact Or.inr (Or.inl rfl)
      · exact Or.inr (Or.inr (Or.inl rfl))
      · rcases hda x h with h2 | rfl
        · exact Or.inl h2
        · exact Or.inr (Or.inr (Or.inr rfl))
    have hform : Colour.to_rgb_string c = ['r', 'g', 'b', 'a'] ++ '(' ::
        ((intDecimal c.red ++ ',' :: ' ' ::
          (intDecimal c.green ++ ',' :: ' ' ::
            (intDecimal c.blue ++ ',' :: ' ' :: pyRatRepr c.alpha))) ++ [')']) := by
      unfold Colour.to_rgb_string
      rw [if_pos hA]
      simp [List.append_assoc]
    have h1 : splitChar '(' (Colour.to_rgb_string c) =
        [['r', 'g', 'b', 'a'], (intDecimal c.red ++ ',' :: ' ' ::
          (intDecimal c.green ++ ',' :: ' ' ::
            (intDecimal c.blue ++ ',' :: ' ' :: pyRatRepr c.alpha))) ++ [')']] := by
      rw [hform, splitChar_append (by decide), splitChar_no_sep]
      intro x hx
      rcases List.mem_append.1 hx with h | h
      · rcases hclassb x h with h2 | rfl | rfl | rfl
        · exact digit_ne h2 (by decide)
        · decide
        · decide
        · decide
      · rw [List.mem_singleton] at h
        subst h
        decide
    have hocc : occursIn ['r', 'g', 'b', 'a'] (Colour.to_rgb_string c) = true := by
      rw [hform]
      exact occursIn_append _ _
    have htw : List.takeWhile (fun ch => ch ≠ ')')
        ((intDecimal c.red ++ ',' :: ' ' ::
          (intDecimal c.green ++ ',' :: ' ' ::
            (intDecimal c.blue ++ ',' :: ' ' :: pyRatRepr c.alpha))) ++ [')']) =
        intDecimal c.red ++ ',' :: ' ' ::
          (intDecimal c.green ++ ',' :: ' ' ::
            (intDecimal c.blue ++ ',' :: ' ' :: pyRatRepr c.alpha)) := by
      refine (@takeWhile_prefix_stop (fun ch => decide (ch ≠ ')')) _ [] ')' ?_ (by decide)).1
      intro x hx
      rcases hclassb x hx with h2 | rfl | rfl | rfl
      · exact decide_eq_true (digit_ne h2 (by decide))
      · decide
      · decide
      · decide
    have hsplit2 : splitChar ',' (intDecimal c.red ++ ',' :: ' ' ::
        (intDecimal c.green ++ ',' :: ' ' ::
          (intDecimal c.blue ++ ',' :: ' ' :: pyRatRepr c.alpha))) =
        [intDecimal c.red, ' ' :: intDecimal c.green, ' ' :: intDecimal c.blue,
          ' ' :: pyRatRepr c.alpha] := by
      rw [splitChar_append (fun x hx => digit_ne (hdr x hx) (by decide))]
      rw [show (' ' :: (intDecimal c.green ++ ',' :: ' ' ::
          (intDecimal c.blue ++ ',' :: ' ' :: pyRatRepr c.alpha)) : List Char) =
        (' ' :: intDecimal c.green) ++ ',' ::
          (' ' :: (intDecimal c.blue ++ ',' :: ' ' :: pyRatRepr c.alpha)) from rfl]
      rw [splitChar_append]
      · rw [show (' ' :: (intDecimal c.blue ++ ',' :: ' ' :: pyRatRepr c.alpha) : List Char) =
          (' ' :: intDecimal c.blue) ++ ',' :: (' ' :: pyRatRepr c.alpha) from rfl]
        rw [splitChar_append]
        · rw [splitChar_no_sep]
          intro x hx
          rcases List.mem_cons.1 hx with rfl | hx
          · decide
          · rcases hda x hx with h2 | rfl
            · exact digit_ne h2 (by decide)
            · decide
        · intro x hx
          rcases List.mem_cons.1 hx with rfl | hx
          · decide
          · exact digit_ne (hdb x hx) (by decide)
      · intro x hx
        rcases List.mem_cons.1 hx with rfl | hx
        · decide
        · exact digit_ne (hdg x hx) (by decide)
    have h2 : (if occursIn ['r', 'g', 'b', 'a'] (Colour.to_rgb_string c) then
        splitChar ',' (((intDecimal c.red ++ ',' :: ' ' ::
          (intDecimal c.green ++ ',' :: ' ' ::
            (intDecimal c.blue ++ ',' :: ' ' :: pyRatRepr c.alpha))) ++ [')']).takeWhile
            (fun ch => ch ≠ ')'))
      else splitChar ',' (((intDecimal c.red ++ ',' :: ' ' ::
          (intDecimal c.green ++ ',' :: ' ' ::
            (intDecimal c.blue ++ ',' :: ' ' :: pyRatRepr c.alpha))) ++ [')']).takeWhile
            (fun ch => ch ≠ ')')) ++ [['1', '.', '0']]) =
        [intDecimal c.red, ' ' :: intDecimal c.green, ' ' :: intDecimal c.blue,
          ' ' :: pyRatRepr c.alpha] := by
      rw [if_pos hocc, htw, hsplit2]
    rw [from_rgb_string_eval h1 h2]
    have hp0 : parseInt (intDecimal c.red) = some c.red := parseInt_intDecimal hr0
    have hp1 : parseInt (' ' :: intDecimal c.green) = some c.green :=
      (parseInt_congr (stripSpaces_cons (by decide))).trans (parseInt_intDecimal hg0)
    have hp2 : parseInt (' ' :: intDecimal c.blue) = some c.blue :=
      (parseInt_congr (stripSpaces_cons (by decide))).trans (parseInt_intDecimal hb0)
    have hp3 : parseFloat (' ' :: pyRatRepr c.alpha) = some c.alpha :=
      (parseFloat_congr (stripSpaces_cons (by decide))).trans (parseFloat_pyRatRepr ha0 hk)
    rw [hp0, hp1, hp2, hp3]
    show mkColour c.red c.green c.blue c.alpha = some c
    exact mkColour_valid ⟨hr0, hr1, hg0, hg1, hb0, hb1, ha0, ha1⟩


/-- Witness for C3: the round trip evaluated at the colours (10, 20, 30, 1.0)
and (10, 20, 30, 0.5). -/
theorem rgb_round_trip_witness :
    Colour.from_rgb_string (Colour.to_rgb_string ⟨10, 20, 30, 1⟩) =
      some ⟨10, 20, 30, 1⟩ ∧
    Colour.from_rgb_string (Colour.to_rgb_string ⟨10, 20, 30, mkRat 1 2⟩) =
      some ⟨10, 20, 30, mkRat 1 2⟩ :=
  ⟨rgb_round_trip ⟨10, 20, 30, 1⟩ (by unfold validColour; decide) (by decide),
   rgb_round_trip ⟨10, 20, 30, mkRat 1 2⟩ (by unfold validColour; decide) (by decide)⟩


lemma distSq_nonneg (c d : Colour) : 0 ≤ distSq c d := by
  unfold distSq
  positivity

lemma firstMin_cons (c b x : Colour) (xs : List Colour) :
    firstMin c b (x :: xs) =
      if distSq c x < distSq c b then firstMin c x xs else firstMin c b xs := rfl

lemma firstMin_cons_pos {c b x : Colour} {xs : List Colour}
    (h : distSq c x < distSq c b) : firstMin c b (x :: xs) = firstMin c x xs := by
  rw [firstMin_cons, if_pos h]

lemma firstMin_cons_neg {c b x : Colour} {xs : List Colour}
    (h : ¬ distSq c x < distSq c b) : firstMin c b (x :: xs) = firstMin c b xs := by
  rw [firstMin_cons, if_neg h]

lemma msStep_some (c b x : Colour) (d : ℤ) :
    msStep c (b, some d) x =
      if distSq c x < d then (x, some (distSq c x)) else (b, some d) := rfl

lemma foldl_msStep (c : Colour) : ∀ (xs : List Colour) (b : Colour),
    xs.foldl (msStep c) (b, some (distSq c b)) =
      (firstMin c b xs, some (distSq c (firstMin c b xs))) := by
  intro xs
  induction xs with
  | nil => intro b; rfl
  | cons x xs ih =>
    intro b
    show xs.foldl (msStep c) (msStep c (b, some (distSq c b)) x) = _
    rw [msStep_some]
    by_cases h : distSq c x < distSq c b
    · rw [if_pos h, ih x, firstMin_cons_pos h]
    · rw [if_neg h, ih b, firstMin_cons_neg h]

lemma most_similar_cons (c x : Colour) (xs : List Colour) :
    Colour.most_similar c (x :: xs) = firstMin c x xs := by
  unfold Colour.most_similar
  rw [show (x :: xs).foldl (msStep c) (c, none) =
    xs.foldl (msStep c) (x, some (distSq c x)) from rfl]
  rw [foldl_msStep]

lemma firstMin_spec (c : Colour) : ∀ (xs : List Colour) (b : Colour),
    (distSq c (firstMin c b xs) ≤ distSq c b ∧
      ∀ y ∈ xs, distSq c (firstMin c b xs) ≤ distSq c y) ∧
    (firstMin c b xs = b ∨
      ∃ pre post, xs = pre ++ firstMin c b xs :: post ∧
        distSq c (firstMin c b xs) < distSq c b ∧
        ∀ y ∈ pre, distSq c (firstMin c b xs) < distSq c y) := by
  intro xs
  induction xs with
  | nil =>
    intro b
    exact ⟨⟨le_refl _, by simp⟩, Or.inl rfl⟩
  | cons x xs ih =>
    intro b
    by_cases h : distSq c x < distSq c b
    · rw [firstMin_cons_pos h]
      obtain ⟨⟨ih1, ih2⟩, ih3⟩ := ih x
      refine ⟨⟨le_trans ih1 (le_of_lt h), ?_⟩, ?_⟩
      · intro y hy
        rcases List.mem_cons.1 hy with rfl | hy
        · exact ih1
        · exact ih2 y hy
      · rcases ih3 with he | ⟨pre, post, hxs, hlt, hpre⟩
        · refine Or.inr ⟨[], xs, ?_, ?_, ?_⟩
          · rw [he]
            rfl
          · rw [he]
            exact h
          · intro y hy
            cases hy
        · refine Or.inr ⟨x :: pre, post, ?_, lt_trans hlt h, ?_⟩
          · rw [List.cons_append, ← hxs]
          · intro y hy
            rcases List.mem_cons.1 hy with rfl | hy
            · exact hlt
            · exact hpre y hy
    · rw [firstMin_cons_neg h]
      obtain ⟨⟨ih1, ih2⟩, ih3⟩ := ih b
      have hbx : distSq c b ≤ distSq c x := not_lt.1 h
      refine ⟨⟨ih1, ?_⟩, ?_⟩
      · intro y hy
        rcases List.mem_cons.1 hy with rfl | hy
        · exact le_trans ih1 hbx
        · exact ih2 y hy
      · rcases ih3 with he | ⟨pre, post, hxs, hlt, hpre⟩
        · exact Or.inl he
        · refine Or.inr ⟨x :: pre, post, ?_, hlt, ?_⟩
          · rw [List.cons_append, ← hxs]
          · intro y hy
            rcases List.mem_cons.1 hy with rfl | hy
            · exact lt_of_lt_of_le hlt hbx
            · exact hpre y hy

/-- C2: for a non-empty palette, `most_similar` returns the entry minimising
the Euclidean RGB distance `sqrt((r1-r2)^2 + (g1-g2)^2 + (b1-b2)^2)`, alpha
playing no role in the distance; among equidistant entries the first in
palette order wins (the returned entry occurs at a position strictly better
than everything before it). -/
theorem most_similar_first_min (c : Colour) (p : List Colour) (h : p ≠ []) :
    (∃ pre post, p = pre ++ Colour.most_similar c p :: post ∧
      (∀ x ∈ p, Real.sqrt ((distSq c (Colour.most_similar c p) : ℝ)) ≤
        Real.sqrt ((distSq c x : ℝ))) ∧
      (∀ y ∈ pre, Real.sqrt ((distSq c (Colour.most_similar c p) : ℝ)) <
        Real.sqrt ((distSq c y : ℝ)))) ∧
    (∀ (c1 c2 : Colour) (a1 a2 : ℚ),
      distSq ⟨c1.red, c1.green, c1.blue, a1⟩ ⟨c2.red, c2.green, c2.blue, a2⟩ =
        distSq c1 c2) := by
  refine ⟨?_, fun c1 c2 a1 a2 => rfl⟩
  obtain ⟨x, xs, rfl⟩ := List.exists_cons_of_ne_nil h
  rw [most_similar_cons]
  obtain ⟨⟨h1, h2⟩, h3⟩ := firstMin_spec c xs x
  have hle : ∀ y ∈ x :: xs, distSq c (firstMin c x xs) ≤ distSq c y := by
    intro y hy
    rcases List.mem_cons.1 hy with rfl | hy
    · exact h1
    · exact h2 y hy
  have hsqle : ∀ y ∈ x :: xs, Real.sqrt ((distSq c (firstMin c x xs) : ℝ)) ≤
      Real.sqrt ((distSq c y : ℝ)) := by
    intro y hy
    exact Real.sqrt_le_sqrt (by exact_mod_cast hle y hy)
  rcases h3 with he | ⟨pre, post, hxs, hlt, hpre⟩
  · refine ⟨[], xs, ?_, hsqle, ?_⟩
    · rw [he]
      rfl
    · intro y hy
      cases hy
  · refine ⟨x :: pre, post, ?_, hsqle, ?_⟩
    · rw [List.cons_append, ← hxs]
    · intro y hy
      have hstrict : distSq c (firstMin c x xs) < distSq c y := by
        rcases List.mem_cons.1 hy with rfl | hy
        · exact hlt
        · exact hpre y hy
      exact Real.sqrt_lt_sqrt (by exact_mod_cast distSq_nonneg c _)
        (by exact_mod_cast hstrict)

/-- C9: for a non-empty palette, `most_similar` returns an element of the
palette (never the query colour seed). -/
theorem most_similar_mem (c : Colour) (p : List Colour) (h : p ≠ []) :
    Colour.most_similar c p ∈ p := by
  obtain ⟨x, xs, rfl⟩ := List.exists_cons_of_ne_nil h
  rw [most_similar_cons]
  obtain ⟨_, h3⟩ := firstMin_spec c xs x
  rcases h3 with he | ⟨pre, post, hxs, _, _⟩
  · rw [he]
    exact List.mem_cons_self _ _
  · have hmem := List.mem_append_right pre (List.mem_cons_self (firstMin c x xs) post)
    rw [← hxs] at hmem
    exact List.mem_cons_of_mem x hmem

/-- C8: against an empty palette, `most_similar` returns the colour itself,
the `(self, float("inf"))` seed surviving the empty scan. -/
theorem most_similar_empty (c : Colour) : Colour.most_similar c [] = c := rfl


/-- Witness for C2: the first-minimum property evaluated at the query colour
(0, 0, 0, 1.0) and the palette [(1, 2, 3, 1.0), (200, 200, 200, 1.0)]. -/
theorem most_similar_first_min_witness :
    (∃ pre post, ([⟨1, 2, 3, 1⟩, ⟨200, 200, 200, 1⟩] : List Colour) =
      pre ++ Colour.most_similar ⟨0, 0, 0, 1⟩ [⟨1, 2, 3, 1⟩, ⟨200, 200, 200, 1⟩] :: post ∧
      (∀ x ∈ ([⟨1, 2, 3, 1⟩, ⟨200, 200, 200, 1⟩] : List Colour),
        Real.sqrt ((distSq ⟨0, 0, 0, 1⟩
          (Colour.most_similar ⟨0, 0, 0, 1⟩ [⟨1, 2, 3, 1⟩, ⟨200, 200, 200, 1⟩]) : ℝ)) ≤
        Real.sqrt ((distSq ⟨0, 0, 0, 1⟩ x : ℝ))) ∧
      (∀ y ∈ pre, Real.sqrt ((distSq ⟨0, 0, 0, 1⟩
          (Colour.most_similar ⟨0, 0, 0, 1⟩ [⟨1, 2, 3, 1⟩, ⟨200, 200, 200, 1⟩]) : ℝ)) <
        Real.sqrt ((distSq ⟨0, 0, 0, 1⟩ y : ℝ)))) ∧
    (∀ (c1 c2 : Colour) (a1 a2 : ℚ),
      distSq ⟨c1.red, c1.green, c1.blue, a1⟩ ⟨c2.red, c2.green, c2.blue, a2⟩ =
        distSq c1 c2) :=
  most_similar_first_min ⟨0, 0, 0, 1⟩ [⟨1, 2, 3, 1⟩, ⟨200, 200, 200, 1⟩]
    (List.cons_ne_nil _ _)

/-- Witness for C9: membership evaluated at a one-entry palette. -/
theorem most_similar_mem_witness :
    Colour.most_similar ⟨0, 0, 0, 1⟩ [⟨5, 5, 5, 1⟩] ∈ ([⟨5, 5, 5, 1⟩] : List Colour) :=
  most_similar_mem ⟨0, 0, 0, 1⟩ [⟨5, 5, 5, 1⟩] (List.cons_ne_nil _ _)


lemma translate_nil (palette : List Colour) (skip_keys : List (List Char)) :
    translate_colourscheme palette skip_keys [] = some [] := by
  rw [translate_colourscheme]

lemma translate_cons (palette : List Colour) (skip_keys : List (List Char))
    (key : List Char) (value : JValue) (rest : List (List Char × JValue)) :
    translate_colourscheme palette skip_keys ((key, value) :: rest) =
      if key ∈ skip_keys then
        (translate_colourscheme palette skip_keys rest).map fun r => (key, value) :: r
      else
        match value with
        | JValue.vobj o =>
          match translate_colourscheme palette skip_keys o,
              translate_colourscheme palette skip_keys rest with
          | some o2, some r => some ((key, JValue.vobj o2) :: r)
          | _, _ => none
        | JValue.vstr s =>
          match Colour.from_rgb_string s with
          | none => none
          | some c =>
            (translate_colourscheme palette skip_keys rest).map fun r =>
              (key, JValue.vstr (Colour.to_rgb_string (Colour.most_similar c palette))) :: r
        | JValue.vother _ => translate_colourscheme palette skip_keys rest := by
  rw [translate_colourscheme.eq_def]

lemma hasBadLeaf_nil (skip_keys : List (List Char)) :
    hasBadLeaf skip_keys [] = false := by
  rw [hasBadLeaf.eq_def]

lemma hasBadLeaf_cons (skip_keys : List (List Char)) (key : List Char) (value : JValue)
    (rest : List (List Char × JValue)) :
    hasBadLeaf skip_keys ((key, value) :: rest) =
      ((if key ∈ skip_keys then false
        else
          match value with
          | JValue.vobj o => hasBadLeaf skip_keys o
          | JValue.vstr s => (Colour.from_rgb_string s).isNone
          | JValue.vother _ => false) || hasBadLeaf skip_keys rest) := by
  rw [hasBadLeaf.eq_def]

lemma translateSpec_nil (palette : List Colour) (skip_keys : List (List Char)) :
    translateSpec palette skip_keys [] = some [] := by
  rw [translateSpec]

lemma translateSpec_cons (palette : List Colour) (skip_keys : List (List Char))
    (key : List Char) (value : JValue) (rest : List (List Char × JValue)) :
    translateSpec palette skip_keys ((key, value) :: rest) =
      match (if key ∈ skip_keys then some (some (key, value))
        else
          match value with
          | JValue.vobj o =>
            (translateSpec palette skip_keys o).map fun o2 => some (key, JValue.vobj o2)
          | JValue.vstr s =>
            (Colour.from_rgb_string s).map fun c =>
              some (key, JValue.vstr (Colour.to_rgb_string (Colour.most_similar c palette)))
          | JValue.vother _ => some none),
        translateSpec palette skip_keys rest with
      | some e, some r => some (e.toList ++ r)
      | _, _ => none := by
  rw [translateSpec.eq_def]



lemma translate_none_iff (palette : List Colour) (skip_keys : List (List Char))
    (o : List (List Char × JValue)) :
    translate_colourscheme palette skip_keys o = none ↔ hasBadLeaf skip_keys o = true := by
  induction o using translate_colourscheme.induct palette skip_keys with
  | case1 => simp [translate_nil, hasBadLeaf_nil]
  | case2 key value rest hk ih =>
    rw [translate_cons, hasBadLeaf_cons, if_pos hk, if_pos hk]
    simpa using ih
  | case3 key rest hk o o2 r hr ho iho ihr =>
    rw [translate_cons, hasBadLeaf_cons, if_neg hk, if_neg hk]
    have hbo : hasBadLeaf skip_keys o = false := by
      cases hb : hasBadLeaf skip_keys o
      · rfl
      · exfalso
        have h2 := iho.2 hb
        rw [h2] at ho
        cases ho
    have hbr : hasBadLeaf skip_keys rest = false := by
      cases hb : hasBadLeaf skip_keys rest
      · rfl
      · exfalso
        have h2 := ihr.2 hb
        rw [h2] at hr
        cases hr
    simp only [ho, hr, hbo, hbr]
    simp
  | case4 key rest hk o hfail iho ihr =>
    rw [translate_cons, hasBadLeaf_cons, if_neg hk, if_neg hk]
    rcases ht : translate_colourscheme palette skip_keys o with _ | o2
    · have hbo := iho.1 ht
      simp only [ht, hbo]
      rcases hr : translate_colourscheme palette skip_keys rest with _ | r
      · have hbr := ihr.1 hr
        simp [hbr]
      · have hbr : hasBadLeaf skip_keys rest = false := by
          cases hb : hasBadLeaf skip_keys rest
          · rfl
          · exfalso
            have h2 := ihr.2 hb
            rw [h2] at hr
            cases hr
        simp [hbr, hbo]
    · rcases hr : translate_colourscheme palette skip_keys rest with _ | r
      · have hbr := ihr.1 hr
        simp only [ht, hr, hbr]
        simp
      · exact (hfail o2 r ht hr).elim
  | case5 key rest hk s hs =>
    rw [translate_cons, hasBadLeaf_cons, if_neg hk, if_neg hk]
    simp [hs]
  | case6 key rest hk s c hs ih =>
    rw [translate_cons, hasBadLeaf_cons, if_neg hk, if_neg hk]
    simp only [hs]
    simpa using ih
  | case7 key rest hk a ih =>
    rw [translate_cons, hasBadLeaf_cons, if_neg hk, if_neg hk]
    simpa using ih



lemma translate_eq_spec (palette : List Colour) (skip_keys : List (List Char))
    (o : List (List Char × JValue)) :
    translate_colourscheme palette skip_keys o = translateSpec palette skip_keys o := by
  induction o using translate_colourscheme.induct palette skip_keys with
  | case1 => rw [translate_nil, translateSpec_nil]
  | case2 key value rest hk ih =>
    rw [translate_cons, translateSpec_cons, if_pos hk, if_pos hk, ih]
    rcases hsr : translateSpec palette skip_keys rest with _ | r
    · rfl
    · rfl
  | case3 key rest hk o o2 r hr ho iho ihr =>
    rw [translate_cons, translateSpec_cons, if_neg hk, if_neg hk]
    have hso : translateSpec palette skip_keys o = some o2 := by
      rw [← iho]
      exact ho
    have hsr : translateSpec palette skip_keys rest = some r := by
      rw [← ihr]
      exact hr
    simp only [ho, hr, hso, hsr]
    rfl
  | case4 key rest hk o hfail iho ihr =>
    rw [translate_cons, translateSpec_cons, if_neg hk, if_neg hk]
    rcases ht : translate_colourscheme palette skip_keys o with _ | o2
    · have hso : translateSpec palette skip_keys o = none := by
        rw [← iho]
        exact ht
      simp only [ht, hso]
      rfl
    · rcases hr : translate_colourscheme palette skip_keys rest with _ | r
      · have hso : translateSpec palette skip_keys o = some o2 := by
          rw [← iho]
          exact ht
        have hsr : translateSpec palette skip_keys rest = none := by
          rw [← ihr]
          exact hr
        simp only [ht, hr, hso, hsr]
        rfl
      · exact (hfail o2 r ht hr).elim
  | case5 key rest hk s hs =>
    rw [translate_cons, translateSpec_cons, if_neg hk, if_neg hk]
    simp only [hs]
    rfl
  | case6 key rest hk s c hs ih =>
    rw [translate_cons, translateSpec_cons, if_neg hk, if_neg hk, ih]
    simp only [hs]
    rcases hsr : translateSpec palette skip_keys rest with _ | r
    · rfl
    · rfl
  | case7 key rest hk a ih =>
    rw [translate_cons, translateSpec_cons, if_neg hk, if_neg hk, ih]
    rcases hsr : translateSpec palette skip_keys rest with _ | r
    · rfl
    · rfl

lemma translate_keys (palette : List Colour) (skip_keys : List (List Char))
    (o : List (List Char × JValue)) :
    ∀ out, translate_colourscheme palette skip_keys o = some out →
      out.map Prod.fst = (o.filter (survives skip_keys)).map Prod.fst := by
  induction o using translate_colourscheme.induct palette skip_keys with
  | case1 =>
    intro out h
    rw [translate_nil] at h
    injection h with h
    subst h
    rfl
  | case2 key value rest hk ih =>
    intro out h
    rw [translate_cons, if_pos hk] at h
    rcases hr : translate_colourscheme palette skip_keys rest with _ | r
    · rw [hr] at h
      simp at h
    · rw [hr] at h
      simp only [Option.map_some'] at h
      injection h with h
      subst h
      have hsv : survives skip_keys (key, value) = true := by
        simp [survives, hk]
      rw [List.filter_cons, if_pos hsv]
      simp only [List.map_cons]
      rw [ih r hr]
  | case3 key rest hk o o2 r hr ho iho ihr =>
    intro out h
    rw [translate_cons, if_neg hk] at h
    simp only [ho, hr] at h
    injection h with h
    subst h
    have hsv : survives skip_keys (key, JValue.vobj o) = true := by
      simp [survives]
    rw [List.filter_cons, if_pos hsv]
    simp only [List.map_cons]
    rw [ihr r hr]
  | case4 key rest hk o hfail iho ihr =>
    intro out h
    rw [translate_cons, if_neg hk] at h
    rcases ht : translate_colourscheme palette skip_keys o with _ | o2
    · simp only [ht] at h
      cases h
    · rcases hr : translate_colourscheme palette skip_keys rest with _ | r
      · simp only [ht, hr] at h
        cases h
      · exact (hfail o2 r ht hr).elim
  | case5 key rest hk s hs =>
    intro out h
    rw [translate_cons, if_neg hk] at h
    simp only [hs] at h
    cases h
  | case6 key rest hk s c hs ih =>
    intro out h
    rw [translate_cons, if_neg hk] at h
    simp only [hs] at h
    rcases hr : translate_colourscheme palette skip_keys rest with _ | r
    · rw [hr] at h
      simp at h
    · rw [hr] at h
      simp only [Option.map_some'] at h
      injection h with h
      subst h
      have hsv : survives skip_keys (key, JValue.vstr s) = true := by
        simp [survives]
      rw [List.filter_cons, if_pos hsv]
      simp only [List.map_cons]
      rw [ih r hr]
  | case7 key rest hk a ih =>
    intro out h
    rw [translate_cons, if_neg hk] at h
    have hsv : survives skip_keys (key, JValue.vother a) = false := by
      simp [survives, hk]
    rw [List.filter_cons, if_neg (by simp [hsv])]
    exact ih out h



/-- C7: translation fails as a whole, with no partial output, exactly when
the tree has a non-skipped string leaf on which `from_rgb_string` raises; so
any such leaf (e.g. `"not-a-colour"`, second conjunct) aborts the whole
translation, while a value under a skipped key is never parsed and never
causes failure, however malformed (third conjunct). -/
theorem translate_error_propagation :
    (∀ (palette : List Colour) (skip_keys : List (List Char))
      (o : List (List Char × JValue)),
      (translate_colourscheme palette skip_keys o = none ↔
        hasBadLeaf skip_keys o = true)) ∧
    Colour.from_rgb_string ['n', 'o', 't', '-', 'a', '-', 'c', 'o', 'l', 'o', 'u', 'r'] =
      none ∧
    (∀ (palette : List Colour) (v : JValue),
      translate_colourscheme palette [['m', 'e', 't', 'a']] [(['m', 'e', 't', 'a'], v)] =
        some [(['m', 'e', 't', 'a'], v)]) := by
  refine ⟨translate_none_iff, by rfl, ?_⟩
  intro palette v
  rw [translate_cons, if_pos (List.mem_cons_self _ _), translate_nil]
  rfl

/-- C1: `translate_colourscheme` realises the spec's four-way per-pair case
split in insertion order (`translateSpec`: skipped keys copied verbatim,
mappings recursively translated, strings re-coloured and re-serialised,
other values dropped), and on success the output keys are exactly the input
keys whose values matched one of the first three cases, in input order. -/
theorem translate_matches_spec :
    (∀ (palette : List Colour) (skip_keys : List (List Char))
      (o : List (List Char × JValue)),
      translate_colourscheme palette skip_keys o = translateSpec palette skip_keys o) ∧
    (∀ (palette : List Colour) (skip_keys : List (List Char))
      (o out : List (List Char × JValue)),
      translate_colourscheme palette skip_keys o = some out →
        out.map Prod.fst = (o.filter (survives skip_keys)).map Prod.fst) :=
  ⟨translate_eq_spec, fun palette skip_keys o out h => translate_keys palette skip_keys o out h⟩

/-- Witness for C1: the key property evaluated on a scheme with one skipped
key and one dropped non-string value. -/
theorem translate_matches_spec_witness :
    List.map Prod.fst [((['m'] : List Char), JValue.vstr ['x'])] =
      List.map Prod.fst (([(['m'], JValue.vstr ['x']), (['n'], JValue.vother 3)]).filter
        (survives [['m']])) :=
  translate_matches_spec.2 [] [['m']] [(['m'], JValue.vstr ['x']), (['n'], JValue.vother 3)]
    [(['m'], JValue.vstr ['x'])]
    (by rw [translate_cons, if_pos (List.mem_cons_self _ _), translate_cons,
          if_neg (by simp), translate_nil]
        rfl)

/-- C6: constructing a Colour with `red = 256`, `red = -1` or `alpha = 1.5`
raises at construction time, and construction succeeds exactly when every
channel is in range — the validation lives only in `__post_init__`, so no
validation error can arise from an already-constructed value. -/
theorem colour_validation :
    mkColour 256 0 0 1 = none ∧
    mkColour (-1) 0 0 1 = none ∧
    mkColour 0 0 0 (mkRat 3 2) = none ∧
    ∀ (r g b : ℤ) (a : ℚ), (mkColour r g b a).isSome = true ↔
      (0 ≤ r ∧ r ≤ 255 ∧ 0 ≤ g ∧ g ≤ 255 ∧ 0 ≤ b ∧ b ≤ 255 ∧ 0 ≤ a ∧ a ≤ 1) := by
  refine ⟨by decide, by decide, by decide, ?_⟩
  intro r g b a
  constructor
  · intro hs
    unfold mkColour at hs
    split_ifs at hs with h1 h2 h3 h4
    · exact absurd hs (by decide)
    · exact absurd hs (by decide)
    · exact absurd hs (by decide)
    · exact absurd hs (by decide)
    · push_neg at h1 h2 h3 h4
      exact ⟨h2.1, h2.2, h3.1, h3.2, h4.1, h4.2, h1.1, h1.2⟩
  · rintro ⟨hr0, hr1, hg0, hg1, hb0, hb1, ha0, ha1⟩
    unfold mkColour
    rw [if_neg (by rintro (h | h) <;> linarith), if_neg (by omega), if_neg (by omega),
      if_neg (by omega)]
    rfl

/-- C10: `from_hex_string` removes every `'#'` anywhere in the input (the
`replace` call), not only a leading prefix: parsing any string equals
parsing it with all `'#'` deleted, so `"ff#ff#ff"` parses like `"#ffffff"`. -/
theorem from_hex_strips_hash :
    (∀ s : List Char, Colour.from_hex_string s =
      Colour.from_hex_string (s.filter (fun c => c ≠ '#'))) ∧
    Colour.from_hex_string ['f', 'f', '#', 'f', 'f', '#', 'f', 'f'] =
      Colour.from_hex_string ['#', 'f', 'f', 'f', 'f', 'f', 'f'] := by
  constructor
  · intro s
    have hff : (s.filter (fun c => c ≠ '#')).filter (fun c => c ≠ '#') =
        s.filter (fun c => c ≠ '#') := by
      rw [List.filter_filter]
      simp
    unfold Colour.from_hex_string
    rw [hff]
  · rfl

/-- C4 (code defect): `to_hex_string` emits the `:02x` format specifiers as
literal text, so on Colour(0, 0, 0, 1.0) it yields "#0:02x0:02x0:02x",
which `from_hex_string` fails to parse — the hex round trip fails instead
of returning the colour. -/
theorem hex_round_trip_defect :
    Colour.to_hex_string ⟨0, 0, 0, 1⟩ =
      ['#', '0', ':', '0', '2', 'x', '0', ':', '0', '2', 'x', '0', ':', '0', '2', 'x'] ∧
    Colour.from_hex_string (Colour.to_hex_string ⟨0, 0, 0, 1⟩) = none := by
  exact ⟨by rfl, by rfl⟩

/-- C5 counterexample: on the 8-hex-digit string "#ffffffff" the parsed
integer alpha 255 fails the `[0.0, 1.0]` range check in `__post_init__`, so
`from_hex_string` raises instead of succeeding as the claim states. -/
theorem hex8_alpha_counterexample :
    Colour.from_hex_string ['#', 'f', 'f', 'f', 'f', 'f', 'f', 'f', 'f'] = none := by
  rfl



/-- C5 (amended): for every 8-hex-digit "#AARRGGBB", `from_hex_string`
reads the first two digits as an integer alpha (not normalised) and the
remaining six as red, green, blue; it succeeds with exactly those values
when that alpha integer is at most 1, and otherwise the construction's
alpha range check raises. -/
theorem hex8_parse (a1 a2 r1 r2 g1 g2 b1 b2 : Char)
    (h : [a1, a2, r1, r2, g1, g2, b1, b2].all isHexDigitChar = true) :
    Colour.from_hex_string ['#', a1, a2, r1, r2, g1, g2, b1, b2] =
      if 16 * hexVal a1 + hexVal a2 ≤ 1 then
        some ⟨pairVal (r1, r2), pairVal (g1, g2), pairVal (b1, b2),
          (((16 * hexVal a1 + hexVal a2 : ℕ) : ℤ) : ℚ)⟩
      else none := by
  have hl := List.all_eq_true.1 h
  have ha1 : isHexDigitChar a1 = true := hl a1 (by simp)
  have ha2 : isHexDigitChar a2 = true := hl a2 (by simp)
  have hr1 : isHexDigitChar r1 = true := hl r1 (by simp)
  have hr2 : isHexDigitChar r2 = true := hl r2 (by simp)
  have hg1 : isHexDigitChar g1 = true := hl g1 (by simp)
  have hg2 : isHexDigitChar g2 = true := hl g2 (by simp)
  have hb1 : isHexDigitChar b1 = true := hl b1 (by simp)
  have hb2 : isHexDigitChar b2 = true := hl b2 (by simp)
  have hkeep : ∀ x : Char, isHexDigitChar x = true → decide (x ≠ '#') = true :=
    fun x hx => decide_eq_true (hexdigit_ne hx (by decide))
  have hfil : (['#', a1, a2, r1, r2, g1, g2, b1, b2].filter (fun c => c ≠ '#')) =
      [a1, a2, r1, r2, g1, g2, b1, b2] := by
    simp only [List.filter_cons, hkeep a1 ha1, hkeep a2 ha2, hkeep r1 hr1, hkeep r2 hr2,
      hkeep g1 hg1, hkeep g2 hg2, hkeep b1 hb1, hkeep b2 hb2]
    simp
  have hstrip : stripSpaces [a1, a2] = [a1, a2] := stripSpaces_eq_self (by
    intro x hx
    rcases List.mem_cons.1 hx with rfl | hx
    · exact hexdigit_not_space ha1
    · rw [List.mem_singleton] at hx
      subst hx
      exact hexdigit_not_space ha2)
  have hcore : parseHexCore [a1, a2] = some (hexDigitsToNat [a1, a2]) := by
    show (if a1 = '0' ∧ (a2 = 'x' ∨ a2 = 'X') then parseHexDigits []
      else parseHexDigits [a1, a2]) = some (hexDigitsToNat [a1, a2])
    rw [if_neg]
    · unfold parseHexDigits
      rw [if_pos]
      refine ⟨by simp, List.all_eq_true.2 ?_⟩
      intro x hx
      rcases List.mem_cons.1 hx with rfl | hx
      · exact ha1
      · rw [List.mem_singleton] at hx
        subst hx
        exact ha2
    · rintro ⟨h0, hx | hx⟩
      · exact absurd hx (hexdigit_ne ha2 (by decide))
      · exact absurd hx (hexdigit_ne ha2 (by decide))
  have hval : hexDigitsToNat [a1, a2] = 16 * hexVal a1 + hexVal a2 := by
    show 16 * (16 * 0 + hexVal a1) + hexVal a2 = 16 * hexVal a1 + hexVal a2
    ring
  have hph : parseHex [a1, a2] = some ((16 * hexVal a1 + hexVal a2 : ℕ) : ℤ) := by
    unfold parseHex
    rw [hstrip]
    simp only [if_neg (hexdigit_ne ha1 (by decide : isHexDigitChar '-' = false)),
      if_neg (hexdigit_ne ha1 (by decide : isHexDigitChar '+' = false)), hcore, hval,
      Option.map_some']
    rfl
  have hfp : findHexPairs [r1, r2, g1, g2, b1, b2] = [(r1, r2), (g1, g2), (b1, b2)] := by
    simp [findHexPairs, hr1, hr2, hg1, hg2, hb1, hb2]
  unfold Colour.from_hex_string
  rw [hfil]
  dsimp only
  rw [if_pos (show (6 : ℕ) < List.length [a1, a2, r1, r2, g1, g2, b1, b2] from by simp)]
  rw [show List.take 2 [a1, a2, r1, r2, g1, g2, b1, b2] = [a1, a2] from rfl]
  rw [show List.drop 2 [a1, a2, r1, r2, g1, g2, b1, b2] = [r1, r2, g1, g2, b1, b2] from rfl]
  simp only [hph, hfp]
  show mkColour (pairVal (r1, r2)) (pairVal (g1, g2)) (pairVal (b1, b2))
      (((16 * hexVal a1 + hexVal a2 : ℕ) : ℤ) : ℚ) = _
  have hrb := pairVal_bounds hr1 hr2
  have hgb := pairVal_bounds hg1 hg2
  have hbb := pairVal_bounds hb1 hb2
  unfold mkColour
  by_cases hn : 16 * hexVal a1 + hexVal a2 ≤ 1
  · rw [if_pos hn,
      if_neg (show ¬((((16 * hexVal a1 + hexVal a2 : ℕ) : ℤ) : ℚ) < 0 ∨
          1 < (((16 * hexVal a1 + hexVal a2 : ℕ) : ℤ) : ℚ)) from by
        rintro (hlt | hlt)
        · have h0 : (0 : ℚ) ≤ (((16 * hexVal a1 + hexVal a2 : ℕ) : ℤ) : ℚ) := by positivity
          linarith
        · have h1 : (((16 * hexVal a1 + hexVal a2 : ℕ) : ℤ) : ℚ) ≤ 1 := by
            exact_mod_cast hn
          linarith),
      if_neg (by omega), if_neg (by omega), if_neg (by omega)]
  · rw [if_neg hn,
      if_pos (Or.inr (show (1 : ℚ) < (((16 * hexVal a1 + hexVal a2 : ℕ) : ℤ) : ℚ) from by
        exact_mod_cast not_le.1 hn))]

/-- Witness for C5 at "#01abcdef" (alpha byte 1, which is in range). -/
theorem hex8_parse_witness :
    Colour.from_hex_string ['#', '0', '1', 'a', 'b', 'c', 'd', 'e', 'f'] =
      if 16 * hexVal '0' + hexVal '1' ≤ 1 then
        some ⟨pairVal ('a', 'b'), pairVal ('c', 'd'), pairVal ('e', 'f'),
          (((16 * hexVal '0' + hexVal '1' : ℕ) : ℤ) : ℚ)⟩
      else none :=
  hex8_parse '0' '1' 'a' 'b' 'c' 'd' 'e' 'f' (by decide)


end Wizard
